import Mathlib

/-!
# Verification of the document-translation pipeline (appl-doctranslate)

Shallow embedding of the structure-preserving translation pipeline:
`txt_translation.py` (line-based decompose / batch / translate / reassemble),
`docx_translation.py` (run-based paragraph reassembly and batch invoker) and
`pdf_translation.py` (block chunking).  Strings are modelled as `List Char`;
the external Azure OpenAI call is modelled as an `Except`-valued oracle
passed explicitly to the invoker.
-/

namespace DocTranslate

/-- Python's whitespace predicate used by `str.strip()` and by `\s` in the
regexes of `parse_text_structure` (ASCII part; both use the same class). -/
def pyIsSpace (c : Char) : Bool :=
  c == ' ' || c == '\t' || c == '\n' || c == '\r' || c == '\x0b' || c == '\x0c'

/-- Python `str.strip()`: drop leading and trailing whitespace. -/
def pyStrip (l : List Char) : List Char :=
  ((l.dropWhile pyIsSpace).reverse.dropWhile pyIsSpace).reverse

/-- One segment produced by `parse_text_structure` (txt_translation.py:42-82):
the dict with keys `content`, `leading_whitespace`, `trailing_whitespace`,
`is_empty`, `line_number`. -/
structure Structure where
  content : List Char
  leading_whitespace : List Char
  trailing_whitespace : List Char
  is_empty : Bool
  line_number : Nat
  deriving Repr, DecidableEq, Inhabited

/-- Decomposition of a single line (the loop body of `parse_text_structure`):
a whitespace-only line becomes an `is_empty` segment carrying the raw line as
`leading_whitespace`; otherwise the line is split into the maximal leading
whitespace run (`re.match r'^(\s*)'`), the stripped content (`line.strip()`)
and the maximal trailing whitespace run (`re.search r'(\s*)$'`). -/
def parseLine (line_num : Nat) (line : List Char) : Structure :=
  if (pyStrip line).isEmpty then
    { content := [], leading_whitespace := line, trailing_whitespace := [],
      is_empty := true, line_number := line_num }
  else
    { content := pyStrip line,
      leading_whitespace := line.takeWhile pyIsSpace,
      trailing_whitespace := (line.reverse.takeWhile pyIsSpace).reverse,
      is_empty := false, line_number := line_num }

/-- `parse_text_structure` (txt_translation.py:42-82): split on `'\n'` and
decompose every line. -/
def parse_text_structure (text : List Char) : List Structure :=
  ((text.splitOn '\n').enum).map fun p => parseLine p.1 p.2

/-- Reassembly of one segment (the loop body of `reconstruct_text`,
txt_translation.py:208-214). -/
def reconstructLine (s : Structure) : List Char :=
  if s.is_empty then s.leading_whitespace
  else s.leading_whitespace ++ s.content ++ s.trailing_whitespace

/-- `reconstruct_text` (txt_translation.py:198-216): rebuild each line and
join with `'\n'`. -/
def reconstruct_text (structures : List Structure) : List Char :=
  [ '\n' ].intercalate (structures.map reconstructLine)

/-! Round-trip lemmas for the line-based path. -/

theorem takeWhile_append_of_exists_not {p : α → Bool} {l₁ : List α}
    (h : ∃ x ∈ l₁, ¬ p x) (l₂ : List α) :
    (l₁ ++ l₂).takeWhile p = l₁.takeWhile p := by
  induction l₁ with
  | nil => rcases h with ⟨x, hx, _⟩; simp at hx
  | cons a t ih =>
    by_cases hpa : p a
    · rcases h with ⟨x, hx, hnx⟩
      rcases List.mem_cons.mp hx with rfl | hxt
      · exact absurd hpa hnx
      · simp [List.takeWhile_cons, hpa, ih ⟨x, hxt, hnx⟩]
    · simp [List.takeWhile_cons, hpa]

/-- A line with non-whitespace content is (leading ++ stripped ++ trailing). -/
theorem line_decomposition (l : List Char) (h : ¬ (pyStrip l).isEmpty) :
    l.takeWhile pyIsSpace ++ pyStrip l ++ (l.reverse.takeWhile pyIsSpace).reverse = l := by
  have hsplit : l.takeWhile pyIsSpace ++ l.dropWhile pyIsSpace = l :=
    List.takeWhile_append_dropWhile pyIsSpace l
  have hstrip : pyStrip l =
      ((l.dropWhile pyIsSpace).reverse.dropWhile pyIsSpace).reverse := rfl
  -- the dropped part contains a non-whitespace character, else pyStrip l = []
  have hmne : ∃ x ∈ (l.dropWhile pyIsSpace).reverse, ¬ pyIsSpace x = true := by
    by_contra hall
    push_neg at hall
    have hnil : (l.dropWhile pyIsSpace).reverse.dropWhile pyIsSpace = [] :=
      List.dropWhile_eq_nil_iff.mpr hall
    exact h (by simp [hstrip, hnil])
  -- the trailing run of l equals the trailing run of the dropped part
  have htrail : l.reverse.takeWhile pyIsSpace =
      (l.dropWhile pyIsSpace).reverse.takeWhile pyIsSpace := by
    have hrev : l.reverse =
        (l.dropWhile pyIsSpace).reverse ++ (l.takeWhile pyIsSpace).reverse := by
      rw [← List.reverse_append, hsplit]
    rw [hrev, takeWhile_append_of_exists_not hmne]
  -- stripped ++ trailing = dropped part
  have hmid : pyStrip l ++ (l.reverse.takeWhile pyIsSpace).reverse =
      l.dropWhile pyIsSpace := by
    rw [hstrip, htrail, ← List.reverse_append, List.takeWhile_append_dropWhile,
      List.reverse_reverse]
  calc l.takeWhile pyIsSpace ++ pyStrip l ++ (l.reverse.takeWhile pyIsSpace).reverse
      = l.takeWhile pyIsSpace ++ (pyStrip l ++ (l.reverse.takeWhile pyIsSpace).reverse) := by
        rw [List.append_assoc]
    _ = l.takeWhile pyIsSpace ++ l.dropWhile pyIsSpace := by rw [hmid]
    _ = l := hsplit

/-- Decomposing one line and reassembling it is the identity. -/
theorem reconstructLine_parseLine (n : Nat) (l : List Char) :
    reconstructLine (parseLine n l) = l := by
  unfold parseLine reconstructLine
  by_cases h : (pyStrip l).isEmpty
  · simp [h]
  · simp only [h, if_false]
    exact line_decomposition l h

/-- C1.  Round-trip identity for the line-based path: for every input text,
`reconstruct_text (parse_text_structure text)` (all contents unchanged,
i.e. the identity translation) reproduces the original text exactly. -/
theorem txt_round_trip_identity (text : List Char) :
    reconstruct_text (parse_text_structure text) = text := by
  unfold reconstruct_text parse_text_structure
  rw [List.map_map]
  have : (reconstructLine ∘ fun p : Nat × List Char => parseLine p.1 p.2) =
      fun p : Nat × List Char => p.2 := by
    funext p
    exact reconstructLine_parseLine p.1 p.2
  rw [this]
  have henum : ((text.splitOn '\n').enum).map (fun p : Nat × List Char => p.2) =
      text.splitOn '\n' := by
    simp [List.enum_map_snd]
  rw [henum]
  exact List.intercalate_splitOn text '\n'

/-! ## Batching (`group_structures_for_translation`, txt_translation.py:85-128) -/

/-- `max_batch_length = 3000` (txt_translation.py:99). -/
def max_batch_length : Nat := 3000

/-- The skip condition of the batching loop (txt_translation.py:102):
`struct['is_empty'] or not struct['content'].strip()`. -/
def structBlank (s : Structure) : Bool :=
  s.is_empty || (pyStrip s.content).isEmpty

/-- The batching loop of `group_structures_for_translation`, with the loop
state (accumulated indices, accumulated texts, accumulated length) made
explicit; `i` is the enumeration counter.  The final `[]` case adds the
last batch if it has content (txt_translation.py:125-126). -/
def groupAux : List Structure → Nat → List Nat → List (List Char) → Nat →
    List (List Nat × List (List Char))
  | [], _, curIdx, curTexts, _ =>
    if curTexts = [] then [] else [(curIdx, curTexts)]
  | s :: rest, i, curIdx, curTexts, curLen =>
    if structBlank s then
      if curTexts = [] then groupAux rest (i + 1) curIdx curTexts curLen
      else (curIdx, curTexts) :: groupAux rest (i + 1) [] [] 0
    else if max_batch_length < curLen + s.content.length ∧ curTexts ≠ [] then
      (curIdx, curTexts) :: groupAux rest (i + 1) [i] [s.content] s.content.length
    else
      groupAux rest (i + 1) (curIdx ++ [i]) (curTexts ++ [s.content])
        (curLen + s.content.length)

/-- `group_structures_for_translation` (txt_translation.py:85-128). -/
def group_structures_for_translation (structures : List Structure) :
    List (List Nat × List (List Char)) :=
  groupAux structures 0 [] [] 0

/-- Cumulative content length of a batch's texts. -/
def batchLen (ts : List (List Char)) : Nat := (ts.map List.length).sum

/-- Content of the segment at index `j` of the original segment list. -/
def contAt (structures : List Structure) (j : Nat) : List Char :=
  (structures.getD j default).content

theorem groupAux_budget (structs : List Structure) :
    ∀ (i : Nat) (curIdx : List Nat) (curTexts : List (List Char)) (curLen : Nat),
    curLen = batchLen curTexts →
    (curTexts ≠ [] → batchLen curTexts ≤ max_batch_length ∨ curTexts.length = 1) →
    ∀ b ∈ groupAux structs i curIdx curTexts curLen,
      b.2 ≠ [] ∧ (batchLen b.2 ≤ max_batch_length ∨ b.2.length = 1) := by
  induction structs with
  | nil =>
    intro i curIdx curTexts curLen hlen hinv b hb
    unfold groupAux at hb
    by_cases h : curTexts = []
    · simp [h] at hb
    · simp only [h, if_false, List.mem_singleton] at hb
      subst hb
      exact ⟨h, hinv h⟩
  | cons s rest ih =>
    intro i curIdx curTexts curLen hlen hinv b hb
    unfold groupAux at hb
    by_cases hblank : structBlank s = true
    · rw [if_pos hblank] at hb
      by_cases h : curTexts = []
      · rw [if_pos h] at hb
        exact ih (i + 1) curIdx curTexts curLen hlen hinv b hb
      · rw [if_neg h] at hb
        rcases List.mem_cons.mp hb with rfl | hb'
        · exact ⟨h, hinv h⟩
        · exact ih (i + 1) [] [] 0 (by simp [batchLen]) (by simp) b hb'
    · rw [if_neg hblank] at hb
      by_cases hover : max_batch_length < curLen + s.content.length ∧ curTexts ≠ []
      · rw [if_pos hover] at hb
        rcases List.mem_cons.mp hb with rfl | hb'
        · exact ⟨hover.2, hinv hover.2⟩
        · exact ih (i + 1) [i] [s.content] s.content.length (by simp [batchLen])
            (by intro _; right; simp) b hb'
      · rw [if_neg hover] at hb
        refine ih (i + 1) (curIdx ++ [i]) (curTexts ++ [s.content])
          (curLen + s.content.length) (by simp [batchLen, hlen]) ?_ b hb
        intro _
        by_cases h : curTexts = []
        · right; simp [h]
        · left
          have hle : curLen + s.content.length ≤ max_batch_length := by
            by_contra hlt
            exact hover ⟨Nat.lt_of_not_le hlt, h⟩
          simpa [batchLen, hlen] using hle

theorem groupAux_paired (orig : List Structure) (structs : List Structure) :
    ∀ (i : Nat) (curIdx : List Nat) (curTexts : List (List Char)) (curLen : Nat),
    structs = orig.drop i →
    curTexts = curIdx.map (contAt orig) →
    ∀ b ∈ groupAux structs i curIdx curTexts curLen,
      b.2 = b.1.map (contAt orig) := by
  induction structs with
  | nil =>
    intro i curIdx curTexts curLen _ hcur b hb
    unfold groupAux at hb
    by_cases h : curTexts = []
    · simp [h] at hb
    · simp only [h, if_false, List.mem_singleton] at hb
      subst hb
      exact hcur
  | cons s rest ih =>
    intro i curIdx curTexts curLen hdrop hcur b hb
    have hi : i < orig.length := by
      by_contra hge
      rw [List.drop_eq_nil_of_le (Nat.le_of_not_lt hge)] at hdrop
      exact List.noConfusion hdrop
    have hcons : orig.drop i = orig[i] :: orig.drop (i + 1) :=
      List.drop_eq_getElem_cons hi
    rw [hcons] at hdrop
    obtain ⟨hs, hrest⟩ : s = orig[i] ∧ rest = orig.drop (i + 1) := by
      exact ⟨(List.cons.injEq .. ▸ hdrop).1, (List.cons.injEq .. ▸ hdrop).2⟩
    have hconti : contAt orig i = s.content := by
      rw [hs]
      simp [contAt, List.getD_eq_getElem?_getD, List.getElem?_eq_getElem hi]
    unfold groupAux at hb
    by_cases hblank : structBlank s = true
    · rw [if_pos hblank] at hb
      by_cases h : curTexts = []
      · rw [if_pos h] at hb
        exact ih (i + 1) curIdx curTexts curLen hrest hcur b hb
      · rw [if_neg h] at hb
        rcases List.mem_cons.mp hb with rfl | hb'
        · exact hcur
        · exact ih (i + 1) [] [] 0 hrest (by simp) b hb'
    · rw [if_neg hblank] at hb
      by_cases hover : max_batch_length < curLen + s.content.length ∧ curTexts ≠ []
      · rw [if_pos hover] at hb
        rcases List.mem_cons.mp hb with rfl | hb'
        · exact hcur
        · exact ih (i + 1) [i] [s.content] s.content.length hrest
            (by simp [hconti]) b hb'
      · rw [if_neg hover] at hb
        exact ih (i + 1) (curIdx ++ [i]) (curTexts ++ [s.content])
          (curLen + s.content.length) hrest (by simp [hcur, hconti]) b hb

/-- C4.  Batch budget invariant: every batch produced by
`group_structures_for_translation` is non-empty, its cumulative content
length is at most `max_batch_length = 3000` unless it is a single
(oversized) segment, and its texts are exactly the whole contents of the
segments at its indices (no content is split across batches). -/
theorem batch_budget_invariant (structures : List Structure)
    (b : List Nat × List (List Char))
    (hb : b ∈ group_structures_for_translation structures) :
    b.2 ≠ [] ∧ (batchLen b.2 ≤ max_batch_length ∨ b.2.length = 1) ∧
      b.2 = b.1.map (contAt structures) := by
  refine ⟨(groupAux_budget structures 0 [] [] 0 rfl (by simp) b hb).1,
    (groupAux_budget structures 0 [] [] 0 rfl (by simp) b hb).2,
    groupAux_paired structures structures 0 [] [] 0 rfl rfl b hb⟩

/-- A 1000-character segment used in the batching boundary scenario. -/
def seg1000 : Structure :=
  { content := List.replicate 1000 'a', leading_whitespace := [],
    trailing_whitespace := [], is_empty := false, line_number := 0 }

set_option maxRecDepth 100000 in
/-- C4 witness at a concrete input. -/
theorem batch_budget_invariant_witness :
    ([0], [seg1000.content]) ∈
        group_structures_for_translation [seg1000] ∧
      ([0], [seg1000.content]).2 ≠ [] ∧
      (batchLen ([0], [seg1000.content]).2 ≤ max_batch_length ∨
        ([0], [seg1000.content]).2.length = 1) ∧
      ([0], [seg1000.content]).2 = ([0], [seg1000.content]).1.map (contAt [seg1000]) := by
  have hmem : ([0], [seg1000.content]) ∈
      group_structures_for_translation [seg1000] := by
    rw [show group_structures_for_translation [seg1000] =
      [([0], [seg1000.content])] from rfl]
    exact List.mem_singleton.mpr rfl
  exact ⟨hmem, batch_budget_invariant [seg1000] ([0], [seg1000.content]) hmem⟩

set_option maxRecDepth 100000 in
/-- C8.  Batching boundary scenario: four non-blank segments of content
length 1000 each yield exactly two batches, the first holding segments
0,1,2 (cumulative length 3000) and the second only segment 3. -/
theorem batching_boundary_scenario :
    group_structures_for_translation [seg1000, seg1000, seg1000, seg1000] =
      [([0, 1, 2], [seg1000.content, seg1000.content, seg1000.content]),
       ([3], [seg1000.content])] ∧
    batchLen [seg1000.content, seg1000.content, seg1000.content] = 3000 ∧
    batchLen [seg1000.content] = 1000 := by
  exact ⟨rfl, rfl, rfl⟩

/-- Indices (counting from `i`) of the segments the batching loop does not
skip, i.e. those with non-blank content; used to state the partition
invariant of the batches. -/
def nonBlankIdx : List Structure → Nat → List Nat
  | [], _ => []
  | s :: rest, i =>
    if structBlank s then nonBlankIdx rest (i + 1)
    else i :: nonBlankIdx rest (i + 1)

theorem groupAux_flatten (structs : List Structure) :
    ∀ (i : Nat) (curIdx : List Nat) (curTexts : List (List Char)) (curLen : Nat),
    (curTexts = [] → curIdx = []) →
    ((groupAux structs i curIdx curTexts curLen).map Prod.fst).flatten
      = curIdx ++ nonBlankIdx structs i := by
  induction structs with
  | nil =>
    intro i curIdx curTexts curLen hempty
    unfold groupAux nonBlankIdx
    by_cases h : curTexts = []
    · rw [if_pos h]
      simp [hempty h]
    · rw [if_neg h]
      simp
  | cons s rest ih =>
    intro i curIdx curTexts curLen hempty
    unfold groupAux nonBlankIdx
    by_cases hblank : structBlank s = true
    · rw [if_pos hblank, if_pos hblank]
      by_cases h : curTexts = []
      · rw [if_pos h]
        exact ih (i + 1) curIdx curTexts curLen hempty
      · rw [if_neg h]
        simp only [List.map_cons, List.flatten_cons]
        rw [ih (i + 1) [] [] 0 (fun _ => rfl)]
        simp
    · rw [if_neg hblank, if_neg hblank]
      by_cases hover : max_batch_length < curLen + s.content.length ∧ curTexts ≠ []
      · rw [if_pos hover]
        simp only [List.map_cons, List.flatten_cons]
        rw [ih (i + 1) [i] [s.content] s.content.length (by simp)]
        simp
      · rw [if_neg hover]
        rw [ih (i + 1) (curIdx ++ [i]) (curTexts ++ [s.content])
          (curLen + s.content.length) (by simp)]
        simp

theorem nonBlankIdx_eq_filter (orig : List Structure) :
    ∀ (structs : List Structure) (i : Nat), structs = orig.drop i →
    nonBlankIdx structs i
      = (List.range' i structs.length).filter
          (fun j => !structBlank (orig.getD j default)) := by
  intro structs
  induction structs with
  | nil => intro i _; rfl
  | cons s rest ih =>
    intro i hdrop
    have hi : i < orig.length := by
      by_contra hge
      rw [List.drop_eq_nil_of_le (Nat.le_of_not_lt hge)] at hdrop
      exact List.noConfusion hdrop
    have hcons : orig.drop i = orig[i] :: orig.drop (i + 1) :=
      List.drop_eq_getElem_cons hi
    rw [hcons] at hdrop
    have hs : s = orig[i] := (List.cons.injEq .. ▸ hdrop).1
    have hrest : rest = orig.drop (i + 1) := (List.cons.injEq .. ▸ hdrop).2
    have hgetD : orig.getD i default = s := by
      rw [hs]
      simp [List.getD_eq_getElem?_getD, List.getElem?_eq_getElem hi]
    unfold nonBlankIdx
    rw [List.length_cons, List.range'_succ, List.filter_cons, hgetD]
    by_cases hblank : structBlank s = true
    · rw [if_pos hblank]
      simp only [hblank, Bool.not_true, if_neg (by simp : ¬ (false = true))]
      exact ih (i + 1) hrest
    · rw [if_neg hblank]
      have hb : structBlank s = false := Bool.eq_false_iff.mpr hblank
      simp only [hb, Bool.not_false, if_pos rfl]
      rw [ih (i + 1) hrest]
      simp

/-- C9.  Batching partition invariant: concatenating the index lists of the
batches of `group_structures_for_translation` yields exactly the indices of
the non-blank segments, each once, in strictly increasing (document)
order; blank segments never appear. -/
theorem batching_partition_invariant (structures : List Structure) :
    ((group_structures_for_translation structures).map Prod.fst).flatten
      = (List.range structures.length).filter
          (fun j => !structBlank (structures.getD j default)) ∧
    List.Pairwise (· < ·)
      (((group_structures_for_translation structures).map Prod.fst).flatten) := by
  have h1 := groupAux_flatten structures 0 [] [] 0 (fun _ => rfl)
  have h2 := nonBlankIdx_eq_filter structures structures 0 (by simp)
  have heq : ((group_structures_for_translation structures).map Prod.fst).flatten
      = (List.range structures.length).filter
          (fun j => !structBlank (structures.getD j default)) := by
    rw [group_structures_for_translation, h1, h2, List.nil_append,
      List.range_eq_range']
  refine ⟨heq, ?_⟩
  rw [heq]
  exact List.Pairwise.sublist (List.filter_sublist _) (List.pairwise_lt_range _)

/-! ## Translation invoker, line-based variant
(`translate_text_batch`, txt_translation.py:131-195).  The external
Azure OpenAI call is modelled as an `Except`-valued oracle: `.ok content`
is the response text, `.error` an exception raised by the call. -/

/-- `re.sub(r'^\d+\.\s*', '', line)` (txt_translation.py:184): remove a
leading run of digits followed by a dot and optional whitespace; if the
pattern does not match at the start, the line is unchanged. -/
def stripNumbering (l : List Char) : List Char :=
  let digits := l.takeWhile Char.isDigit
  let rest := l.dropWhile Char.isDigit
  if digits = [] then l
  else
    match rest with
    | '.' :: r => r.dropWhile pyIsSpace
    | _ => l

/-- The cleanup loop of `translate_text_batch` (txt_translation.py:179-185):
strip each response line, keep only non-empty ones, and remove model-added
numbering. -/
def cleanLines : List (List Char) → List (List Char)
  | [] => []
  | line :: rest =>
    let line' := pyStrip line
    if line' = [] then cleanLines rest
    else stripNumbering line' :: cleanLines rest

/-- `translate_text_batch` (txt_translation.py:131-195).  Returns the input
unchanged when the list is empty or all-blank (line 144) or when the call
raises (lines 193-195); otherwise strips the response, splits it on
newlines, cleans the lines, pads the shortfall with the corresponding
original inputs (lines 188-189) and truncates to the input length
(line 191). -/
def translate_text_batch (resp : Except Unit (List Char))
    (texts : List (List Char)) : List (List Char) :=
  if texts = [] ∨ texts.all (fun t => (pyStrip t).isEmpty) then texts
  else
    match resp with
    | .error _ => texts
    | .ok content =>
      let translated_lines := (pyStrip content).splitOn '\n'
      let cleaned := cleanLines translated_lines
      (cleaned ++ texts.drop cleaned.length).take texts.length

/-! ## Translation invoker, run-based variant
(`translate_text_batch`, docx_translation.py:17-99). -/

/-- The separator token the docx prompt asks the model to use. -/
def sepToken : List Char := "---TRANSLATION_SEPARATOR---".toList

/-- Python `content.split(sep)` for the multi-character separator
(docx_translation.py:68), via `String.splitOn`. -/
def splitOnSepToken (content : List Char) : List (List Char) :=
  ((String.mk content).splitOn (String.mk sepToken)).map String.toList

/-- The part of `line` after its first `'.'` — Python
`line.split('.', 1)[1]` (docx_translation.py:81). -/
def afterFirstDot (l : List Char) : List Char :=
  (l.dropWhile (fun c => ¬ c = '.')).tail

/-- The numbered-list fallback parser of the docx `translate_text_batch`
(docx_translation.py:70-86), looping over the response lines with the
accumulated `translated_parts` and `current_translation`. -/
def docxFallbackParts : List (List Char) → List (List Char) → List Char →
    List (List Char)
  | [], parts, cur => if cur = [] then parts else parts ++ [pyStrip cur]
  | line :: rest, parts, cur =>
    let line' := pyStrip line
    if line' ≠ [] ∧
        ((Nat.repr (parts.length + 1)).toList ++ ['.'] <+: line' ∨
          (Nat.repr (parts.length + 1)).toList ++ [' '] <+: line') then
      let parts' := if cur = [] then parts else parts ++ [pyStrip cur]
      let cur' := if '.' ∈ line' then pyStrip (afterFirstDot line') else line'
      docxFallbackParts rest parts' cur'
    else
      let cur' := if cur ≠ [] ∧ line' ≠ [] then cur ++ ' ' :: line' else cur ++ line'
      docxFallbackParts rest parts cur'

/-- Response parsing of the docx `translate_text_batch`
(docx_translation.py:66-86): split on the separator token if present,
else run the numbered-list fallback parser. -/
def docxParseParts (translated_content : List Char) : List (List Char) :=
  if sepToken <:+: translated_content then splitOnSepToken translated_content
  else docxFallbackParts (translated_content.splitOn '\n') [] []

/-- Positions of the non-blank input texts — the values of `text_map`
(docx_translation.py:34-39) in order. -/
def nonEmptyPositions (texts : List (List Char)) : List Nat :=
  (texts.enum.filter (fun p => ¬ (pyStrip p.2).isEmpty)).map Prod.fst

/-- The write-back loop of the docx `translate_text_batch`
(docx_translation.py:89-92): start from a copy of `texts` and overwrite
each originally non-blank position with the corresponding stripped parsed
translation (`translated_parts[:len(non_empty_texts)]`). -/
def docxApplyParts (texts : List (List Char)) (parts : List (List Char))
    (posMap : List Nat) : List (List Char) :=
  ((parts.take posMap.length).zip posMap).foldl
    (fun res p => res.set p.2 (pyStrip p.1)) texts

/-- `translate_text_batch` of docx_translation.py:17-99.  The second guard
of the source (`if not non_empty_texts: return texts`, line 41-42) is
subsumed by the first (line 30-31): `non_empty_texts` is empty exactly when
every text is blank, so it is not a separate branch here. -/
def docx_translate_text_batch (resp : Except Unit (List Char))
    (texts : List (List Char)) : List (List Char) :=
  if texts = [] ∨ texts.all (fun t => (pyStrip t).isEmpty) then texts
  else
    match resp with
    | .error _ => texts
    | .ok content =>
      let parts := docxParseParts (pyStrip content)
      docxApplyParts texts parts (nonEmptyPositions texts)

/-- C2.  Fallback safety: for every non-empty list of texts, if the external
call raises, both batch invokers (txt and docx variants) return exactly the
original list. -/
theorem fallback_safety (texts : List (List Char)) (e : Unit)
    (_hne : texts ≠ []) :
    translate_text_batch (.error e) texts = texts ∧
      docx_translate_text_batch (.error e) texts = texts := by
  constructor
  · unfold translate_text_batch
    by_cases h : texts = [] ∨ texts.all (fun t => (pyStrip t).isEmpty)
    · rw [if_pos h]
    · rw [if_neg h]
  · unfold docx_translate_text_batch
    by_cases h : texts = [] ∨ texts.all (fun t => (pyStrip t).isEmpty)
    · rw [if_pos h]
    · rw [if_neg h]

/-- C2 witness at a concrete input. -/
theorem fallback_safety_witness :
    translate_text_batch (.error ()) [['h', 'i']] = [['h', 'i']] ∧
      docx_translate_text_batch (.error ()) [['h', 'i']] = [['h', 'i']] :=
  fallback_safety [['h', 'i']] () (by decide)

theorem docxApplyParts_length (parts : List (List Char)) (posMap : List Nat)
    (texts : List (List Char)) :
    (docxApplyParts texts parts posMap).length = texts.length := by
  unfold docxApplyParts
  generalize (parts.take posMap.length).zip posMap = ps
  induction ps generalizing texts with
  | nil => rfl
  | cons p rest ih => simpa [List.foldl_cons] using ih (texts.set p.2 (pyStrip p.1))

/-- C3.  Length guarantee with padding: both invokers always return exactly
`texts.length` outputs, and in the txt variant every position at or beyond
the number of parsed (cleaned) translations holds the corresponding
original input text. -/
theorem translate_batch_length_padding :
    (∀ (resp : Except Unit (List Char)) (texts : List (List Char)),
        (translate_text_batch resp texts).length = texts.length) ∧
    (∀ (content : List Char) (texts : List (List Char)) (j : Nat),
        ¬ (texts = [] ∨ texts.all (fun t => (pyStrip t).isEmpty)) →
        (cleanLines ((pyStrip content).splitOn '\n')).length ≤ j →
        (translate_text_batch (.ok content) texts)[j]? = texts[j]?) ∧
    (∀ (resp : Except Unit (List Char)) (texts : List (List Char)),
        (docx_translate_text_batch resp texts).length = texts.length) := by
  refine ⟨?_, ?_, ?_⟩
  · intro resp texts
    unfold translate_text_batch
    by_cases h : texts = [] ∨ texts.all (fun t => (pyStrip t).isEmpty)
    · rw [if_pos h]
    · rw [if_neg h]
      match resp with
      | .error _ => rfl
      | .ok content =>
        simp only [List.length_take, List.length_append, List.length_drop]
        omega
  · intro content texts j hguard hj
    unfold translate_text_batch
    rw [if_neg hguard]
    show ((cleanLines ((pyStrip content).splitOn '\n') ++
        texts.drop (cleanLines ((pyStrip content).splitOn '\n')).length).take
          texts.length)[j]? = texts[j]?
    generalize cleanLines ((pyStrip content).splitOn '\n') = cleaned at hj ⊢
    by_cases hjlen : j < texts.length
    · rw [List.getElem?_take]
      rw [if_pos hjlen]
      rw [List.getElem?_append_right (by simpa using hj)]
      rw [List.getElem?_drop]
      congr 1
      omega
    · have h1 : (((cleaned ++ texts.drop cleaned.length).take texts.length))[j]? = none := by
        apply List.getElem?_eq_none
        simp only [List.length_take, List.length_append, List.length_drop]
        omega
      have h2 : texts[j]? = none := List.getElem?_eq_none (by omega)
      rw [h1, h2]
  · intro resp texts
    unfold docx_translate_text_batch
    by_cases h : texts = [] ∨ texts.all (fun t => (pyStrip t).isEmpty)
    · rw [if_pos h]
    · rw [if_neg h]
      match resp with
      | .error _ => rfl
      | .ok content => exact docxApplyParts_length _ _ _

/-- C3 witness at a concrete input. -/
theorem translate_batch_length_padding_witness :
    (translate_text_batch (.ok ['X']) [['a'], ['b']]).length = [['a'], ['b']].length ∧
    (translate_text_batch (.ok ['X']) [['a'], ['b']])[1]? = [['a'], ['b']][1]? ∧
    (docx_translate_text_batch (.ok ['X']) [['a'], ['b']]).length = [['a'], ['b']].length := by
  obtain ⟨h1, h2, h3⟩ := translate_batch_length_padding
  exact ⟨h1 (.ok ['X']) [['a'], ['b']],
    h2 ['X'] [['a'], ['b']] 1 (by decide) (by decide),
    h3 (.ok ['X']) [['a'], ['b']]⟩

/-! ## Run-based reassembly (`apply_translations_to_paragraphs`,
docx_translation.py:121-176).

A python-docx run is modelled by its text and the formatting attributes the
source reads and writes; `none` is python-docx's `None` ("inherit").
`font_color_rgb` models `run.font.color.rgb` (an `RGBColor`, a `tuple`
subclass, hence always truthy when present); `font_size` models
`run.font.size` (an int subclass, falsy at 0); `highlight_color` models the
int-valued `WD_COLOR_INDEX` member (falsy at 0). -/

structure Run where
  text : List Char
  bold : Option Bool
  italic : Option Bool
  underline : Option Bool
  font_name : Option (List Char)
  font_size : Option Nat
  font_color_rgb : Option Nat
  highlight_color : Option Nat
  deriving Repr, DecidableEq, Inhabited

structure Paragraph where
  runs : List Run
  deriving Repr, DecidableEq, Inhabited

/-- The `original_formatting` dict captured at docx_translation.py:137-145. -/
structure Formatting where
  bold : Option Bool
  italic : Option Bool
  underline : Option Bool
  font_name : Option (List Char)
  font_size : Option Nat
  font_color : Option Nat
  highlight_color : Option Nat
  deriving Repr, DecidableEq, Inhabited

/-- Python truthiness of an optional string (`if original_formatting['font_name']:`):
present and non-empty. -/
def truthyOptStr (o : Option (List Char)) : Bool :=
  match o with
  | some s => ¬ s.isEmpty
  | none => false

/-- Python truthiness of an optional int-like value (`font_size`,
`highlight_color`): present and non-zero. -/
def truthyOptNat (o : Option Nat) : Bool :=
  match o with
  | some v => v ≠ 0
  | none => false

/-- Formatting capture from a run (docx_translation.py:137-145); for the
color, `run.font.color.rgb if run.font.color.rgb else None` — an `RGBColor`
is a non-empty tuple, hence truthy whenever present. -/
def snapshotFormatting (r : Run) : Formatting :=
  { bold := r.bold, italic := r.italic, underline := r.underline,
    font_name := r.font_name, font_size := r.font_size,
    font_color := r.font_color_rgb, highlight_color := r.highlight_color }

/-- Reapplication of the captured formatting (docx_translation.py:162-176):
each attribute is written back only when its captured value passes the
source's guard (`is not None` for the three flags, truthiness for the
rest); each guard touches exactly its own field. -/
def applyFormatting (f : Formatting) (r : Run) : Run :=
  { r with
    bold := if f.bold.isSome then f.bold else r.bold,
    italic := if f.italic.isSome then f.italic else r.italic,
    underline := if f.underline.isSome then f.underline else r.underline,
    font_name := if truthyOptStr f.font_name then f.font_name else r.font_name,
    font_size := if truthyOptNat f.font_size then f.font_size else r.font_size,
    font_color_rgb := if f.font_color.isSome then f.font_color else r.font_color_rgb,
    highlight_color := if truthyOptNat f.highlight_color then f.highlight_color
      else r.highlight_color }

/-- One iteration of `apply_translations_to_paragraphs`
(docx_translation.py:129-176): skip blank translations; capture formatting
from the first run with non-whitespace text; clear every run's text
(`run.clear()`); remove all runs beyond the first; set the first run's text
to the translation and reapply the captured formatting. -/
def applyTranslationToParagraph (p : Paragraph) (translation : List Char) :
    Paragraph :=
  if (pyStrip translation).isEmpty then p
  else
    let fmt := (p.runs.find? (fun r => ¬ (pyStrip r.text).isEmpty)).map
      snapshotFormatting
    let cleared := p.runs.map (fun r => { r with text := [] })
    match cleared.take 1, fmt with
    | [], _ => { runs := [] }
    | first :: _, none => { runs := [{ first with text := translation }] }
    | first :: _, some f => { runs := [applyFormatting f { first with text := translation }] }

/-- `apply_translations_to_paragraphs` (docx_translation.py:121-176): the
`zip` pairs paragraphs with translations; paragraphs without a paired
translation are left as they are (the source mutates in place). -/
def apply_translations_to_paragraphs (ps : List Paragraph)
    (ts : List (List Char)) : List Paragraph :=
  (ps.zip ts).map (fun q => applyTranslationToParagraph q.1 q.2) ++
    ps.drop ts.length

/-- C5.  Run-based formatting survival: if the first non-whitespace run of a
paragraph is bold, italic and colored, and the translation is non-blank,
the reassembled paragraph is a single run carrying the translated text with
bold, italic and that font color. -/
theorem formatting_survival (p : Paragraph) (translation : List Char)
    (r0 : Run) (rgb : Nat)
    (hfind : p.runs.find? (fun r => ¬ (pyStrip r.text).isEmpty) = some r0)
    (hbold : r0.bold = some true) (hitalic : r0.italic = some true)
    (hcolor : r0.font_color_rgb = some rgb)
    (htr : ¬ (pyStrip translation).isEmpty) :
    (applyTranslationToParagraph p translation).runs.map Run.text = [translation] ∧
    (applyTranslationToParagraph p translation).runs.map Run.bold = [some true] ∧
    (applyTranslationToParagraph p translation).runs.map Run.italic = [some true] ∧
    (applyTranslationToParagraph p translation).runs.map Run.font_color_rgb
      = [some rgb] := by
  have hne : p.runs ≠ [] := by
    intro hnil
    rw [hnil] at hfind
    exact Option.noConfusion hfind
  obtain ⟨h, t, hruns⟩ := List.exists_cons_of_ne_nil hne
  unfold applyTranslationToParagraph
  rw [if_neg htr, hfind, hruns]
  simp only [List.map_cons, List.take_succ_cons, List.take_zero, Option.map_some]
  simp [applyFormatting, snapshotFormatting, hbold, hitalic, hcolor]

/-- A concrete bold, italic, red run used in the C5 witness. -/
def boldRedRun : Run :=
  { text := ['H', 'i'], bold := some true, italic := some true,
    underline := none, font_name := none, font_size := none,
    font_color_rgb := some 0xFF0000, highlight_color := none }

/-- C5 witness at a concrete input. -/
theorem formatting_survival_witness :
    (applyTranslationToParagraph { runs := [boldRedRun] }
        ['B', 'o', 'n']).runs.map Run.text = [['B', 'o', 'n']] ∧
    (applyTranslationToParagraph { runs := [boldRedRun] }
        ['B', 'o', 'n']).runs.map Run.bold = [some true] ∧
    (applyTranslationToParagraph { runs := [boldRedRun] }
        ['B', 'o', 'n']).runs.map Run.italic = [some true] ∧
    (applyTranslationToParagraph { runs := [boldRedRun] }
        ['B', 'o', 'n']).runs.map Run.font_color_rgb = [some 0xFF0000] :=
  formatting_survival { runs := [boldRedRun] } ['B', 'o', 'n'] boldRedRun 0xFF0000
    (by decide) rfl rfl rfl (by decide)

/-- C6.  Blank-translation frame condition: any paragraph whose paired
translation is empty or whitespace-only (including paragraphs beyond the
end of the translation list) is returned completely unchanged, runs,
texts and formatting included. -/
theorem blank_translation_frame (ps : List Paragraph) (ts : List (List Char))
    (j : Nat) (hj : j < ps.length)
    (hblank : (pyStrip (ts.getD j [])).isEmpty) :
    (apply_translations_to_paragraphs ps ts)[j]? = ps[j]? := by
  induction ps generalizing ts j with
  | nil => simp at hj
  | cons p ps' ih =>
    cases ts with
    | nil =>
      simp [apply_translations_to_paragraphs]
    | cons t ts' =>
      cases j with
      | zero =>
        have ht : (pyStrip t).isEmpty := by simpa using hblank
        simp only [apply_translations_to_paragraphs, List.zip_cons_cons,
          List.map_cons, List.length_cons, List.drop_succ_cons,
          List.cons_append, List.getElem?_cons_zero]
        rw [applyTranslationToParagraph, if_pos ht]
      | succ j' =>
        have hj' : j' < ps'.length := by simpa using hj
        have hblank' : (pyStrip (ts'.getD j' [])).isEmpty := by simpa using hblank
        simpa only [apply_translations_to_paragraphs, List.zip_cons_cons,
          List.map_cons, List.length_cons, List.drop_succ_cons,
          List.cons_append, List.getElem?_cons_succ]
          using ih ts' j' hj' hblank'

/-- C6 witness at a concrete input. -/
theorem blank_translation_frame_witness :
    (apply_translations_to_paragraphs
        [{ runs := [{ text := ['H', 'i'], bold := some true, italic := none,
                      underline := none, font_name := none, font_size := none,
                      font_color_rgb := none, highlight_color := none }] }]
        [[' ', ' ']])[0]? =
      [({ runs := [{ text := ['H', 'i'], bold := some true, italic := none,
                     underline := none, font_name := none, font_size := none,
                     font_color_rgb := none, highlight_color := none }] } :
          Paragraph)][0]? :=
  blank_translation_frame _ [[' ', ' ']] 0 (by decide) (by decide)

/-! ## Block translation (`translate_text`, pdf_translation.py:15-51).

The external per-chunk call is modelled as an oracle
`resp : List Char → Except (List Char) (List Char)`; `.error e` is an
exception whose `str(e)` is `e`.  Note the source's `try` wraps the whole
chunk loop, not each chunk. -/

/-- `max_chunk_size = 3000` (pdf_translation.py:19). -/
def max_chunk_size : Nat := 3000

/-- Slicing loop with explicit fuel; the fuel only bounds the number of
slices (each non-final slice removes `max_chunk_size ≥ 1` characters), so
`fuel = l.length` never runs out before the text does. -/
def chunksOfAux : Nat → List Char → List (List Char)
  | 0, _ => []
  | _ + 1, [] => []
  | fuel + 1, c :: l =>
    (c :: l).take max_chunk_size :: chunksOfAux fuel ((c :: l).drop max_chunk_size)

/-- `[text[i:i+max_chunk_size] for i in range(0, len(text), max_chunk_size)]`
(pdf_translation.py:20). -/
def chunksOf (l : List Char) : List (List Char) :=
  chunksOfAux l.length l

/-- The chunk loop of `translate_text` (pdf_translation.py:24-46) with
Python exception propagation made explicit: blank chunks are skipped; the
first raising call aborts the loop with its error, discarding `acc`. -/
def translateChunksLoop (resp : List Char → Except (List Char) (List Char)) :
    List (List Char) → List (List Char) → Except (List Char) (List (List Char))
  | [], acc => .ok acc
  | c :: rest, acc =>
    if (pyStrip c).isEmpty then translateChunksLoop resp rest acc
    else
      match resp c with
      | .error e => .error e
      | .ok t => translateChunksLoop resp rest (acc ++ [t])

/-- `translate_text` (pdf_translation.py:15-51): chunk the block, translate
each chunk, join with `'\n'`; the `except` at the function level turns any
raised error into the single inline marker string
`"Translation error: " + str(e)` for the WHOLE block. -/
def pdf_translate_text (resp : List Char → Except (List Char) (List Char))
    (text : List Char) : List Char :=
  match translateChunksLoop resp (chunksOf text) [] with
  | .ok parts => [ '\n' ].intercalate parts
  | .error e => "Translation error: ".toList ++ e

/-- A block of 3000 `'a'` plus one `'b'`, so it splits into two chunks. -/
def twoChunkText : List Char := List.replicate 3000 'a' ++ ['b']

/-- An oracle that succeeds (with `"T"`) on every chunk except `['b']`,
where it raises `"boom"`. -/
def failSecondOracle (c : List Char) : Except (List Char) (List Char) :=
  if c = ['b'] then .error "boom".toList else .ok ['T']

theorem pyStrip_isEmpty_iff (l : List Char) :
    (pyStrip l).isEmpty = true ↔ ∀ x ∈ l, pyIsSpace x = true := by
  rw [List.isEmpty_iff]
  unfold pyStrip
  rw [List.reverse_eq_nil_iff, List.dropWhile_eq_nil_iff]
  constructor
  · intro h x hx
    rw [← List.takeWhile_append_dropWhile pyIsSpace l] at hx
    rcases List.mem_append.mp hx with h1 | h2
    · exact List.mem_takeWhile_imp h1
    · exact h x (List.mem_reverse.mpr h2)
  · intro hall x hx
    exact hall x ((List.dropWhile_sublist pyIsSpace).subset
      (List.mem_reverse.mp hx))

theorem twoChunkText_chunks :
    chunksOf twoChunkText = [List.replicate 3000 'a', ['b']] := by
  have hlen : twoChunkText.length = 3001 := by
    rw [twoChunkText, List.length_append, List.length_replicate]
    rfl
  have hcons : twoChunkText = 'a' :: (List.replicate 2999 'a' ++ ['b']) := by
    rw [twoChunkText, show (3000 : Nat) = 2999 + 1 from rfl,
      List.replicate_succ, List.cons_append]
  have hrlen : (List.replicate 3000 'a').length = max_chunk_size :=
    List.length_replicate 3000 'a'
  rw [chunksOf, hlen, hcons]
  show ('a' :: (List.replicate 2999 'a' ++ ['b'])).take max_chunk_size ::
      chunksOfAux 3000 (('a' :: (List.replicate 2999 'a' ++ ['b'])).drop max_chunk_size)
    = _
  rw [← List.cons_append, ← List.replicate_succ,
    show (2999 + 1 : Nat) = 3000 from rfl]
  rw [List.take_left' hrlen, List.drop_left' hrlen]
  rfl

theorem replicate_a_not_blank :
    ¬ (pyStrip (List.replicate 3000 'a')).isEmpty = true := by
  intro h
  have ha : 'a' ∈ List.replicate 3000 'a' :=
    List.mem_replicate.mpr ⟨by decide, rfl⟩
  have := (pyStrip_isEmpty_iff (List.replicate 3000 'a')).mp h 'a' ha
  exact absurd this (by decide)

theorem replicate_a_ne_b : List.replicate 3000 'a' ≠ ['b'] := by
  intro h
  have hlen := congrArg List.length h
  rw [List.length_replicate, List.length_singleton] at hlen
  exact absurd hlen (by decide)

/-- C7 counterexample: with two chunks where only the second fails, the
whole block's result is the bare error marker; the first chunk's successful
translation `"T"` is NOT preserved, contradicting per-chunk failure
isolation. -/
theorem chunk_failure_not_isolated :
    pdf_translate_text failSecondOracle twoChunkText = "Translation error: boom".toList ∧
    pdf_translate_text failSecondOracle twoChunkText ≠
      'T' :: '\n' :: "Translation error: boom".toList := by
  have hloop : translateChunksLoop failSecondOracle
      [List.replicate 3000 'a', ['b']] [] = .error "boom".toList := by
    simp only [translateChunksLoop]
    rw [if_neg replicate_a_not_blank]
    rw [show failSecondOracle (List.replicate 3000 'a') = .ok ['T'] from
      if_neg replicate_a_ne_b]
    simp only [translateChunksLoop]
    rw [if_neg (by decide : ¬ (pyStrip ['b']).isEmpty = true)]
    rfl
  have hres : pdf_translate_text failSecondOracle twoChunkText =
      "Translation error: boom".toList := by
    rw [pdf_translate_text, twoChunkText_chunks, hloop]
    decide
  refine ⟨hres, ?_⟩
  rw [hres]
  decide

/-- The amended per-chunk behaviour: if the oracle succeeds on every
non-blank chunk before `c`, `c` is non-blank and the oracle raises `e` on
`c`, the loop aborts with `e`. -/
theorem translateChunksLoop_error
    (resp : List Char → Except (List Char) (List Char)) :
    ∀ (pre : List (List Char)) (c : List Char) (post : List (List Char))
      (e : List Char) (acc : List (List Char)),
    (∀ c' ∈ pre, ¬ (pyStrip c').isEmpty → ∃ t, resp c' = .ok t) →
    ¬ (pyStrip c).isEmpty → resp c = .error e →
    translateChunksLoop resp (pre ++ c :: post) acc = .error e := by
  intro pre
  induction pre with
  | nil =>
    intro c post e acc _ hc herr
    rw [List.nil_append]
    simp only [translateChunksLoop]
    rw [if_neg hc, herr]
  | cons p pre' ih =>
    intro c post e acc hpre hc herr
    rw [List.cons_append]
    simp only [translateChunksLoop]
    by_cases hp : (pyStrip p).isEmpty
    · rw [if_pos hp]
      exact ih c post e acc (fun c' hc' => hpre c' (by simp [hc'])) hc herr
    · rw [if_neg hp]
      obtain ⟨t, ht⟩ := hpre p (by simp) hp
      rw [ht]
      exact ih c post e (acc ++ [t]) (fun c' hc' => hpre c' (by simp [hc'])) hc herr

/-- C7 amended.  Per-chunk failures are caught at the BLOCK level: when the
oracle raises on the first failing non-blank chunk, `translate_text`
returns the inline error marker string for the whole block, discarding the
other chunks' translations; the exception does not escape (the document is
not failed). -/
theorem chunk_failure_block_level
    (resp : List Char → Except (List Char) (List Char)) (text : List Char)
    (pre : List (List Char)) (c : List Char) (post : List (List Char))
    (e : List Char)
    (hsplit : chunksOf text = pre ++ c :: post)
    (hpre : ∀ c' ∈ pre, ¬ (pyStrip c').isEmpty → ∃ t, resp c' = .ok t)
    (hc : ¬ (pyStrip c).isEmpty) (herr : resp c = .error e) :
    pdf_translate_text resp text = "Translation error: ".toList ++ e := by
  unfold pdf_translate_text
  rw [hsplit, translateChunksLoop_error resp pre c post e [] hpre hc herr]

/-- C7 amended-claim witness at a concrete input. -/
theorem chunk_failure_block_level_witness :
    pdf_translate_text failSecondOracle twoChunkText =
      "Translation error: ".toList ++ "boom".toList :=
  chunk_failure_block_level failSecondOracle twoChunkText
    [List.replicate 3000 'a'] ['b'] [] "boom".toList
    (by rw [twoChunkText_chunks]; rfl)
    (by
      intro c' hc' _
      have hc'' : c' = List.replicate 3000 'a' := List.mem_singleton.mp hc'
      exact ⟨['T'], by rw [hc'']; exact if_neg replicate_a_ne_b⟩)
    (by decide) rfl

/-! ## Encoding detection (`detect_encoding`, txt_translation.py:18-39).

The byte source is a `List Nat` of byte values (< 256).  The Python codecs
are external to the repository; the last three of the trial list are
modelled from their standard definitions, while the UTF-8 and UTF-8-sig
decoders are kept abstract (the theorem holds for every behaviour). -/

/-- Modelled from the spec: Python's `latin-1` codec maps every byte
0..255 to the code point of the same value, so decoding never fails. -/
def latin1_decodes (bs : List Nat) : Bool :=
  bs.all (fun b => b < 256)

/-- Modelled from the spec: `cp1252` decoding fails exactly on the five
bytes 0x81, 0x8D, 0x8F, 0x90, 0x9D that are unmapped in Windows-1252. -/
def cp1252_decodes (bs : List Nat) : Bool :=
  bs.all (fun b => b < 256 &&
    !(b = 0x81 || b = 0x8D || b = 0x8F || b = 0x90 || b = 0x9D))

/-- Modelled from the spec: `iso-8859-1` is latin-1. -/
def iso8859_1_decodes (bs : List Nat) : Bool := latin1_decodes bs

/-- `detect_encoding` (txt_translation.py:18-39): try the fixed list
`['utf-8', 'utf-8-sig', 'latin-1', 'cp1252', 'iso-8859-1']` in order,
returning the first that decodes the file without error, with a final
fallback of `'utf-8'`.  The utf-8 trials are abstract oracles. -/
def detect_encoding (utf8Ok utf8sigOk : List Nat → Bool) (bs : List Nat) :
    String :=
  if utf8Ok bs then "utf-8"
  else if utf8sigOk bs then "utf-8-sig"
  else if latin1_decodes bs then "latin-1"
  else if cp1252_decodes bs then "cp1252"
  else if iso8859_1_decodes bs then "iso-8859-1"
  else "utf-8"

/-- C10.  Encoding-detection reachability: on any byte sequence, whatever
the utf-8/utf-8-sig decoders do, the result is one of the first three
encodings, and the cp1252, iso-8859-1 and final-fallback branches are
unreachable because latin-1 decodes everything. -/
theorem detect_encoding_reachability (utf8Ok utf8sigOk : List Nat → Bool)
    (bs : List Nat) (hbytes : ∀ b ∈ bs, b < 256) :
    detect_encoding utf8Ok utf8sigOk bs =
      (if utf8Ok bs then "utf-8"
       else if utf8sigOk bs then "utf-8-sig" else "latin-1") ∧
    detect_encoding utf8Ok utf8sigOk bs ∈ ["utf-8", "utf-8-sig", "latin-1"] := by
  have hlatin : latin1_decodes bs = true := by
    unfold latin1_decodes
    rw [List.all_eq_true]
    intro b hb
    exact decide_eq_true (hbytes b hb)
  constructor
  · unfold detect_encoding
    by_cases h1 : utf8Ok bs = true
    · rw [if_pos h1, if_pos h1]
    · rw [if_neg h1, if_neg h1]
      by_cases h2 : utf8sigOk bs = true
      · rw [if_pos h2, if_pos h2]
      · rw [if_neg h2, if_neg h2, if_pos hlatin]
  · unfold detect_encoding
    by_cases h1 : utf8Ok bs = true
    · rw [if_pos h1]; simp
    · rw [if_neg h1]
      by_cases h2 : utf8sigOk bs = true
      · rw [if_pos h2]; simp
      · rw [if_neg h2, if_pos hlatin]; simp

/-- C10 witness at a concrete input: a byte undecodable as utf-8 with
oracles that reject it still yields `latin-1`. -/
theorem detect_encoding_reachability_witness :
    detect_encoding (fun _ => false) (fun _ => false) [0x81] =
      (if (fun (_ : List Nat) => false) [0x81] then "utf-8"
       else if (fun (_ : List Nat) => false) [0x81] then "utf-8-sig"
       else "latin-1") ∧
    detect_encoding (fun _ => false) (fun _ => false) [0x81] ∈
      ["utf-8", "utf-8-sig", "latin-1"] :=
  detect_encoding_reachability (fun _ => false) (fun _ => false) [0x81]
    (by decide)

end DocTranslate
